import Mathlib

/-!
Verification development for the sonicshare peer-to-peer file transfer
engine.  The JavaScript sources are shallowly embedded: byte buffers
(ArrayBuffer / Uint8Array / DataView) become lists of naturals, the
JavaScript Map becomes an insertion-ordered association list, AES-GCM is
modelled symbolically, and the stateful handlers become explicit state
transition functions.  Each embedded definition is named after the source
function it models and documented with the source file it comes from.

The file is organised as definitions first (sections 1 to 8), then the
theorems about them.
-/

namespace SonicShare

/-! ## 1. Byte-level helpers (DataView reads and writes, big-endian)

A DataView read at index i of a buffer is modelled as indexing into a
List Nat; all reads performed by the embedded code are in range, and an
out-of-range read defaults to 0. -/

/-- Read one byte at index i (DataView.getUint8). -/
def rd8 : List Nat → Nat → Nat
  | [], _ => 0
  | b :: _, 0 => b
  | _ :: l, n + 1 => rd8 l n

/-- Read a big-endian 16-bit integer at index i (DataView.getUint16). -/
def rd16 (l : List Nat) (i : Nat) : Nat :=
  rd8 l i * 256 + rd8 l (i + 1)

/-- Read a big-endian 32-bit integer at index i (DataView.getUint32 with
littleEndian = false). -/
def rd32 (l : List Nat) (i : Nat) : Nat :=
  ((rd8 l i * 256 + rd8 l (i + 1)) * 256 + rd8 l (i + 2)) * 256 + rd8 l (i + 3)

/-- The four bytes written by DataView.setUint32 big-endian (the value is
truncated to 32 bits, as in JavaScript). -/
def be32 (n : Nat) : List Nat :=
  [n / 2 ^ 24 % 256, n / 2 ^ 16 % 256, n / 2 ^ 8 % 256, n % 256]

/-- The two bytes written by DataView.setUint16 big-endian. -/
def be16 (n : Nat) : List Nat :=
  [n / 256 % 256, n % 256]

/-! ## 2. Association lists standing in for the JavaScript Map and for
IndexedDB object stores.

A JavaScript Map keeps at most one entry per key; set updates the entry
in place or appends a new one.  An IndexedDB put with an explicit or
in-line key has the same upsert semantics. -/

/-- Map.get / Map.has and IndexedDB keyed reads over the association
list model: the value under key k, if any. -/
def mapLookup {α : Type} : List (Nat × α) → Nat → Option α
  | [], _ => none
  | (k, v) :: l, key => if k = key then some v else mapLookup l key

/-- Map.set / IndexedDB put: replace the entry under key k if present
(keeping its position), otherwise append a new entry. -/
def mapPut {α : Type} (m : List (Nat × α)) (k : Nat) (v : α) : List (Nat × α) :=
  if (mapLookup m k).isSome then
    m.map (fun p => if p.1 = k then (k, v) else p)
  else m ++ [(k, v)]

/-- Map.delete: remove the entries under key k (a Map holds at most
one entry per key, so this deletes that one). -/
def mapDelete {α : Type} : List (Nat × α) → Nat → List (Nat × α)
  | [], _ => []
  | p :: l, k => if p.1 = k then mapDelete l k else p :: mapDelete l k

/-- The keys of an association list, in order. -/
def mapKeys {α : Type} (m : List (Nat × α)) : List Nat :=
  m.map Prod.fst

/-! ## 3. Checksum (src/web/js/packet.js buildVideoPacket and
src/web/js/receiver.js calculateChecksum)

Both compute the 16-bit wrap-around sum of the first min(len, 100)
payload bytes: for i below min(len, 100), sum = (sum + data[i]) mod 2^16. -/

/-- The checksum accumulation loop: sum = (sum + data[i]) AND 0xffff. -/
def checksumAcc : List Nat → Nat → Nat
  | [], s => s
  | b :: r, s => checksumAcc r ((s + b) % 65536)

/-- SonicReceiver.calculateChecksum (src/web/js/receiver.js), identical to
the inline checksum loop of buildVideoPacket (src/web/js/packet.js):
16-bit wrap-around sum of the first min(len, 100) bytes. -/
def calculateChecksum (data : List Nat) : Nat :=
  checksumAcc (data.take 100) 0

/-! ## 4. Framing codec (src/web/js/packet.js) -/

/-- Packet type tags (src/web/js/packet.js PacketType). -/
def PacketType.DATA : Nat := 1
def PacketType.ACK : Nat := 2
def PacketType.END : Nat := 6
def PacketType.VIDEO_DATA : Nat := 10
def PacketType.SACK : Nat := 11
def PacketType.FEC : Nat := 12

/-- Result of parsePacket (src/web/js/packet.js). -/
inductive ParsedPacket where
  | ack (seq : Nat)
  | dataPkt (seq : Nat) (iv : List Nat) (payload : List Nat)
  | videoData (seq size fileOffset : Nat) (isLast : Bool) (checksum : Nat)
      (payload : List Nat)
  | sack (cumulativeAck : Nat) (ranges : List (Nat × Nat))
  | fec (group : Nat) (payload : List Nat)
  | other (type seq : Nat)
deriving DecidableEq, Repr

/-- The SACK range-reading loop of parsePacket: count ranges of two
big-endian 32-bit integers each, starting at byte offset off. -/
def sackRangesFrom (buf : List Nat) (off : Nat) : Nat → List (Nat × Nat)
  | 0 => []
  | n + 1 => (rd32 buf off, rd32 buf (off + 4)) :: sackRangesFrom buf (off + 8) n

/-- parsePacket (src/web/js/packet.js): reads the 1-byte type tag and the
big-endian sequence number, then the type-specific fields.  A
buffer.slice(a, b) becomes (buf.drop a).take (b - a). -/
def parsePacket (buf : List Nat) : ParsedPacket :=
  let type := rd8 buf 0
  let seq := rd32 buf 1
  if type = PacketType.ACK then .ack seq
  else if type = PacketType.DATA then
    let ivLength := rd32 buf 5
    let iv := (buf.drop 9).take ivLength
    let payloadLength := rd32 buf (9 + ivLength)
    let payload := (buf.drop (13 + ivLength)).take payloadLength
    .dataPkt seq iv payload
  else if type = PacketType.VIDEO_DATA then
    let size := rd32 buf 5
    let fileOffset := rd32 buf 9
    let isLast := rd8 buf 13 = 1
    let checksum := rd16 buf 14
    let payload := (buf.drop 16).take size
    .videoData seq size fileOffset isLast checksum payload
  else if type = PacketType.SACK then
    let count := rd32 buf 5
    .sack seq (sackRangesFrom buf 9 count)
  else if type = PacketType.FEC then
    .fec seq (buf.drop 5)
  else .other type seq

/-- buildVideoPacket (src/web/js/packet.js): 16-byte header
Type(1) Seq(4) Size(4) Offset(4) isLast(1) Checksum(2), big-endian,
followed by the payload.  The Uint8Array construction truncates each
payload entry to a byte, hence the map by mod 256. -/
def buildVideoPacket (seq : Nat) (payload : List Nat) (isLast : Bool)
    (fileOffset : Nat) : List Nat :=
  let payloadBytes := payload.map (· % 256)
  PacketType.VIDEO_DATA :: (be32 seq ++ (be32 payloadBytes.length ++
    (be32 fileOffset ++ ((if isLast then 1 else 0) ::
      (be16 (calculateChecksum payloadBytes) ++ payloadBytes)))))

/-! ## 5. Crypto layer (crypto.js, bundled at the end of
src/web/js/receiver.js; legacy copy in src/unnamed/part_000)

AES-GCM is modelled symbolically: a ciphertext records the key, the
12-byte nonce and the plaintext it was produced from, and decryption
succeeds exactly when invoked with the same key and the same nonce;
otherwise the AEAD tag check fails.  A real ciphertext is 16 bytes longer
than its plaintext (the GCM tag), which the byteLength function reflects
because the sender advances its file offset by the byte length of the
data it sent. -/

/-- Symbolic AES-GCM ciphertext. -/
structure GcmCiphertext where
  key : List Nat
  iv : List Nat
  plaintext : List Nat
deriving DecidableEq, Repr

/-- crypto.subtle.encrypt with AES-GCM, symbolic. -/
def subtleEncrypt (key iv plaintext : List Nat) : GcmCiphertext :=
  ⟨key, iv, plaintext⟩

/-- crypto.subtle.decrypt with AES-GCM, symbolic: the AEAD tag check
succeeds exactly when the key and nonce match the ones used to encrypt. -/
def subtleDecrypt (key iv : List Nat) (c : GcmCiphertext) : Option (List Nat) :=
  if c.key = key ∧ c.iv = iv then some c.plaintext else none

/-- The value of state.sharedKey: null before key agreement, the string
INSECURE in local (non-HTTPS) mode, or a derived AES-GCM key. -/
inductive SharedKey where
  | nil
  | insecure
  | key (k : List Nat)
deriving DecidableEq, Repr

/-- Data travelling on a data channel: either plaintext bytes or a
symbolic AES-GCM ciphertext. -/
inductive WireData where
  | plain (bytes : List Nat)
  | cipher (c : GcmCiphertext)
deriving DecidableEq, Repr

/-- ArrayBuffer.byteLength of wire data: an AES-GCM ciphertext is 16
bytes (the tag) longer than its plaintext. -/
def WireData.byteLength : WireData → Nat
  | .plain b => b.length
  | .cipher c => c.plaintext.length + 16

/-- encryptChunk (crypto.js): takes a single buffer parameter.  When the
context is insecure or the shared key is the INSECURE marker it returns
the buffer unencrypted with no iv; otherwise it draws a fresh random
12-byte nonce from crypto.getRandomValues (the rand argument) and
encrypts under state.sharedKey with that nonce.  Because the function has
only one parameter, a caller that passes a custom IV as a second argument
has it silently ignored, as in JavaScript.  Calling it in secure mode
while sharedKey is null makes crypto.subtle.encrypt throw, modelled as
none. -/
def encryptChunk (isSecure : Bool) (sharedKey : SharedKey) (rand : List Nat)
    (buffer : List Nat) : Option (Option (List Nat) × WireData) :=
  if ¬ isSecure ∨ sharedKey = SharedKey.insecure then
    some (none, .plain buffer)
  else
    match sharedKey with
    | .key k => some (some rand, .cipher (subtleEncrypt k rand buffer))
    | _ => none

/-- The deterministic 12-byte IV reconstructed from a sequence number:
a zero-filled 12-byte buffer with setUint32(8, seq, false), that is eight
zero bytes followed by seq in big-endian (src/web/js/receiver.js
decryptChunk and src/web/js/protocol.js trySend both build this). -/
def deterministicIv (seq : Nat) : List Nat :=
  [0, 0, 0, 0, 0, 0, 0, 0] ++ be32 seq

/-- SonicReceiver.decryptChunk (src/web/js/receiver.js): reconstructs the
deterministic IV from seq and calls crypto.js decryptChunk, which in
secure mode decrypts under the derived shared key k with that IV. -/
def receiverDecryptChunk (k : List Nat) (c : GcmCiphertext) (seq : Nat) :
    Option (List Nat) :=
  subtleDecrypt k (deterministicIv seq) c

/-! ## 6. Sender engine (src/web/js/protocol.js trySend, handleMessage,
src/web/js/state.js resetTransfer; legacy sender in src/unnamed/part_000)
-/

/-- CHUNK_SIZE from src/web/js/config.js. -/
def CHUNK_SIZE : Nat := 256 * 1024

/-- The modelled part of the shared mutable state object
(src/web/js/state.js) used by the protocol.js sender. -/
structure SenderState where
  currentFile : Option (List Nat)
  fileOffset : Nat
  nextSeq : Nat
  currentChunkSize : Nat
  sharedKey : SharedKey
  isTransferring : Bool
  isSending : Bool
  totalBytesTransferred : Nat
deriving DecidableEq, Repr

/-- state.resetTransfer (src/web/js/state.js), restricted to the modelled
fields: nextSeq 0, fileOffset 0, isTransferring true, byte counter 0,
chunk size back to 512 KiB. -/
def resetTransfer (st : SenderState) : SenderState :=
  { st with nextSeq := 0, isTransferring := true, fileOffset := 0,
            totalBytesTransferred := 0, currentChunkSize := 512 * 1024 }

/-- The RESUME_FROM branch of handleMessage (src/web/js/protocol.js):
sets isTransferring and nextSeq = floor(byteOffset / CHUNK_SIZE), then
calls trySend.  No other state field is touched. -/
def handleResumeFrom (st : SenderState) (byteOffset : Nat) : SenderState :=
  { st with isTransferring := true, nextSeq := byteOffset / CHUNK_SIZE }

/-- The arguments the sender passes to buildSonicPacket before sending on
the chosen data channel (src/web/js/protocol.js trySend): sequence
number, chunk data (possibly encrypted), isLast, byte offset in the file
and the encrypted flag.  buildSonicPacket itself is imported from
packet.js; the claims treated here are about which chunks are sent, so
the packet is modelled as this argument record. -/
structure SonicPacket where
  seq : Nat
  chunk : WireData
  isLast : Bool
  offset : Nat
  isEncrypted : Bool
deriving DecidableEq, Repr

/-- The while loop of trySend (src/web/js/protocol.js).  Channel
selection is modelled as a single open data channel below MAX_BUFFER
(the claims proved here do not concern backpressure or load balancing).
rand seq is the 12-byte getRandomValues draw consumed by encryptChunk
when encrypting the chunk with sequence number seq.  The loop runs while
fileOffset is below the file size: it slices the file at fileOffset,
encrypts when IS_SECURE and a real shared key is present (building the
deterministic IV that the one-parameter encryptChunk then ignores),
sends, and advances nextSeq and fileOffset by the byte length of the
possibly-encrypted chunk.  Recursion is fuelled; any fuel at least the
file size is enough to finish. -/
def trySendLoop (isSecure : Bool) (rand : Nat → List Nat) :
    Nat → SenderState → List SonicPacket → SenderState × List SonicPacket
  | 0, st, sent => (st, sent)
  | fuel + 1, st, sent =>
    match st.currentFile with
    | none => (st, sent)
    | some file =>
      if st.fileOffset < file.length then
        let offset := st.fileOffset
        let slice := (file.drop offset).take st.currentChunkSize
        let customIv := deterministicIv st.nextSeq
        let enc : WireData × Bool :=
          if isSecure ∧ st.sharedKey ≠ SharedKey.nil ∧
              st.sharedKey ≠ SharedKey.insecure then
            match encryptChunk isSecure st.sharedKey (rand st.nextSeq) slice with
            | some r => (r.2, true)
            | none => (.plain slice, false)
          else (.plain slice, false)
        let chunk := enc.1
        let isLast := decide (file.length ≤ st.fileOffset + chunk.byteLength)
        let pkt : SonicPacket := ⟨st.nextSeq, chunk, isLast, offset, enc.2⟩
        trySendLoop isSecure rand fuel
          { st with nextSeq := st.nextSeq + 1,
                    fileOffset := st.fileOffset + chunk.byteLength,
                    totalBytesTransferred :=
                      st.totalBytesTransferred + chunk.byteLength }
          (sent ++ [pkt])
      else (st, sent)

/-- trySend (src/web/js/protocol.js): returns immediately when no file is
selected, no transfer is running, or a send loop is already active;
otherwise sets isSending, runs the send loop, and clears isSending.  The
second component lists the packets sent, in order. -/
def trySend (isSecure : Bool) (rand : Nat → List Nat) (fuel : Nat)
    (st : SenderState) : SenderState × List SonicPacket :=
  if st.currentFile = none ∨ ¬ st.isTransferring ∨ st.isSending then (st, [])
  else
    let r := trySendLoop isSecure rand fuel { st with isSending := true } []
    ({ r.1 with isSending := false }, r.2)

/-- Constants of the legacy monolithic client (src/unnamed/part_000). -/
def LEGACY_CHUNK_SIZE : Nat := 32 * 1024
def LEGACY_WINDOW_SIZE : Nat := 8

/-- Math.ceil(size / CHUNK_SIZE) over naturals. -/
def legacyTotalChunks (file : List Nat) : Nat :=
  (file.length + LEGACY_CHUNK_SIZE - 1) / LEGACY_CHUNK_SIZE

/-- The modelled module-level state of the legacy sender
(src/unnamed/part_000): sharedKey is null until deriveSharedKey runs. -/
structure LegacySenderState where
  currentFile : Option (List Nat)
  nextSeq : Nat
  lastAck : Int
  inflight : List (Nat × List Nat)
  isTransferring : Bool
  isSending : Bool
  ready : Bool
  sharedKey : Option (List Nat)
deriving DecidableEq, Repr

/-- A DATA message of the legacy sender: seq, the random iv, and the
encrypted payload. -/
structure LegacyDataMsg where
  seq : Nat
  iv : List Nat
  payload : GcmCiphertext
deriving DecidableEq, Repr

/-- The sliding-window while loop of the legacy trySend
(src/unnamed/part_000 lines 515 to 551): while nextSeq is inside the
window (nextSeq at most lastAck + WINDOW_SIZE) and below totalChunks, it
reads the chunk at nextSeq * CHUNK_SIZE; if sharedKey is null it logs
cannot send, clears isSending and returns without sending; otherwise it
encrypts with a fresh random nonce, sends the DATA message, records the
plaintext in the inflight table and advances nextSeq. -/
def legacyTrySendLoop (rand : Nat → List Nat) :
    Nat → LegacySenderState → List LegacyDataMsg →
      LegacySenderState × List LegacyDataMsg
  | 0, st, sent => (st, sent)
  | fuel + 1, st, sent =>
    match st.currentFile with
    | none => (st, sent)
    | some file =>
      if (st.nextSeq : Int) ≤ st.lastAck + LEGACY_WINDOW_SIZE ∧
          st.nextSeq < legacyTotalChunks file then
        let offset := st.nextSeq * LEGACY_CHUNK_SIZE
        let arrayBuffer := (file.drop offset).take LEGACY_CHUNK_SIZE
        match st.sharedKey with
        | none => ({ st with isSending := false }, sent)
        | some k =>
          let iv := rand st.nextSeq
          let msg : LegacyDataMsg := ⟨st.nextSeq, iv, subtleEncrypt k iv arrayBuffer⟩
          legacyTrySendLoop rand fuel
            { st with inflight := mapPut st.inflight st.nextSeq arrayBuffer,
                      nextSeq := st.nextSeq + 1 }
            (sent ++ [msg])
      else (st, sent)

/-- The legacy trySend (src/unnamed/part_000): guarded on a selected
file, a running transfer, no concurrent send, and the READY state; then
the windowed send loop.  The completion branch that emits HASH and END
after the loop is not modelled, since the claims treated here concern
the emission of DATA chunks. -/
def legacyTrySend (rand : Nat → List Nat) (fuel : Nat)
    (st : LegacySenderState) : LegacySenderState × List LegacyDataMsg :=
  if st.currentFile = none ∨ ¬ st.isTransferring ∨ st.isSending ∨ ¬ st.ready then
    (st, [])
  else
    let r := legacyTrySendLoop rand fuel { st with isSending := true } []
    ({ r.1 with isSending := false }, r.2)

/-! ## 7. SonicReceiver (src/web/js/receiver.js) -/

/-- A stable insertion sort by a boolean comparison, standing in for
Array.prototype.sort with a numeric comparator.  All key lists sorted in
this development have pairwise distinct keys. -/
def insertBy {α : Type} (le : α → α → Bool) (a : α) : List α → List α
  | [] => [a]
  | b :: l => if le a b then a :: b :: l else b :: insertBy le a l

/-- Sort a list with a boolean comparison (insertion sort). -/
def sortBy {α : Type} (le : α → α → Bool) : List α → List α
  | [] => []
  | a :: l => insertBy le a (sortBy le l)

/-- Receiver lifecycle states (receiver.js this.state). -/
inductive RState where
  | idle
  | connecting
  | receiving
  | assembling
  | completed
  | error
deriving DecidableEq, Repr

/-- What the receiver keeps per chunk in its in-memory chunks map: the
payload bytes live only in IndexedDB (receiver.js line 414). -/
structure ChunkMeta where
  offset : Nat
  size : Nat
  isLast : Bool
deriving DecidableEq, Repr

/-- One record of the IndexedDB chunks store, keyed by seq.  In the
source the record key is transferId concatenated with seq and the record
carries the transferId, so within one transfer the records are keyed by
seq alone, which is how the model indexes them. -/
structure StoredChunk where
  data : List Nat
  offset : Nat
  size : Nat
  isLast : Bool
deriving DecidableEq, Repr

/-- SACK_BATCH_SIZE (src/web/js/config.js). -/
def SACK_BATCH_SIZE : Nat := 50

/-- The modelled fields of a SonicReceiver instance: the in-memory
chunks map, the receivedBytes counter, the pending-ACK list and whether
the 100 ms ACK timer is armed, the lifecycle state, metadata.fileSize,
the IndexedDB records of this transfer, and whether this.cryptoKey is
set. -/
structure ReceiverState where
  chunks : List (Nat × ChunkMeta)
  receivedBytes : Nat
  pendingAcks : List Nat
  ackTimerSet : Bool
  rstate : RState
  fileSize : Nat
  store : List (Nat × StoredChunk)
  hasCryptoKey : Bool
deriving DecidableEq, Repr

/-- Observable events of the receive path: the start and the completion
of a chunk-store put, a push onto the pending-ACK list, the sending of a
CHUNK_BATCH_ACK, the sending of a RETRANSMIT_REQUEST, and the scheduling
of assembleFile. -/
inductive REvent where
  | putStart (seq : Nat)
  | putComplete (seq : Nat)
  | ackEnqueue (seq : Nat)
  | batchAck (sequences : List Nat) (receivedBytes : Nat)
  | retransmitReq (sequences : List Nat)
  | assembleScheduled
deriving DecidableEq, Repr

/-- SonicReceiver.handleBinaryChunk (src/web/js/receiver.js lines 355 to
445).  Parses the 16-byte header (seq, size, offset, flags, checksum,
big-endian), drops frames shorter than 16 bytes, requests a retransmit on
a length mismatch, a checksum mismatch or a decryption failure, and
otherwise records the chunk metadata, adds the decrypted length to
receivedBytes, starts the IndexedDB put (saveChunk, called without
await), pushes seq onto the pending-ACK list, flushes the batch when it
reaches SACK_BATCH_SIZE or arms the 100 ms timer, and schedules assembly
when the chunk isLast or receivedBytes has reached fileSize.  Decryption
is the dec oracle (crypto.js decryptChunk under the session key): none
models a thrown AEAD failure.  The result is the new receiver state and
the ordered list of observable events of this handler run. -/
def handleBinaryChunk (dec : List Nat → Nat → Option (List Nat))
    (st : ReceiverState) (buf : List Nat) : ReceiverState × List REvent :=
  if buf.length < 16 then (st, [])
  else
    let seq := rd32 buf 0
    let size := rd32 buf 4
    let offset := rd32 buf 8
    let flags := rd8 buf 12
    let checksum := rd16 buf 14
    let isLast := flags % 2 = 1
    let isEncrypted := flags / 2 % 2 = 1
    if buf.length ≠ 16 + size then (st, [.retransmitReq [seq]])
    else
      let payload := (buf.drop 16).take size
      if calculateChecksum payload ≠ checksum then (st, [.retransmitReq [seq]])
      else
        match (if isEncrypted ∧ st.hasCryptoKey then dec payload seq
               else some payload) with
        | none => (st, [.retransmitReq [seq]])
        | some data =>
          let st1 := { st with
            chunks := mapPut st.chunks seq ⟨offset, data.length, isLast⟩,
            receivedBytes := st.receivedBytes + data.length,
            store := mapPut st.store seq ⟨data, offset, data.length, isLast⟩ }
          let pending := st1.pendingAcks ++ [seq]
          let ackPart : ReceiverState × List REvent :=
            if SACK_BATCH_SIZE ≤ pending.length then
              ({ st1 with pendingAcks := [], ackTimerSet := false },
               [.batchAck pending st1.receivedBytes])
            else if ¬ st1.ackTimerSet then
              ({ st1 with pendingAcks := pending, ackTimerSet := true }, [])
            else ({ st1 with pendingAcks := pending }, [])
          let completeEvs : List REvent :=
            if isLast ∨ st1.fileSize ≤ st1.receivedBytes then
              [.assembleScheduled]
            else []
          (ackPart.1,
           [.putStart seq, .ackEnqueue seq] ++ ackPart.2 ++ completeEvs)

/-- The observable events of the full lifecycle of one incoming frame:
the handler events followed by the oncomplete callback of the IndexedDB
put the handler started.  saveChunk is invoked without await
(receiver.js line 425), so the transaction completion callback runs only
after the rest of the handler, including the pending-ACK push and any
CHUNK_BATCH_ACK send, has finished. -/
def frameLifecycle (dec : List Nat → Nat → Option (List Nat))
    (st : ReceiverState) (buf : List Nat) : List REvent :=
  let evs := (handleBinaryChunk dec st buf).2
  evs ++ evs.filterMap (fun e =>
    match e with
    | .putStart s => some (.putComplete s)
    | _ => none)

/-- The ordering property claim C2 asserts of a frame lifecycle: every
enqueue of a sequence number onto the pending-ACK list is preceded by the
completed chunk-store put of that sequence number. -/
def persistedBeforeAck (tr : List REvent) : Prop :=
  ∀ i s, tr.get? i = some (.ackEnqueue s) → REvent.putComplete s ∈ tr.take i

/-- Effects of assembleFile: a read of all stored chunks of the
transfer, the emission of the assembled file to the application, and a
RETRANSMIT_REQUEST for missing sequences. -/
inductive AsmEffect where
  | storeRead
  | fileEmit (bytes : List Nat)
  | retransmit (seqs : List Nat)
deriving DecidableEq, Repr

/-- The gap-scan loop of assembleFile (receiver.js lines 595 to 603) over
the sorted sequence numbers: sequences between the running expectedSeq
and the next present sequence are missing; after each entry expectedSeq
becomes one past the larger of the two. -/
def missingFrom : Nat → List Nat → List Nat
  | _, [] => []
  | e, s :: rest => List.range' e (s - e) ++ missingFrom (max e s + 1) rest

/-- SonicReceiver.assembleFile (src/web/js/receiver.js lines 582 to 646):
returns immediately in the assembling and completed states; otherwise
enters assembling and scans the sorted in-memory chunk map for gaps; on a
gap it requests a retransmit of the missing sequences and reverts to
receiving; otherwise it reads all stored chunks of the transfer sorted by
seq, concatenates their payloads in order, emits the assembled file,
marks the transfer completed and deletes the store records (cleanup). -/
def assembleFile (st : ReceiverState) : ReceiverState × List AsmEffect :=
  if st.rstate = RState.assembling ∨ st.rstate = RState.completed then (st, [])
  else
    let st1 := { st with rstate := RState.assembling }
    let sortedSeqs := sortBy (fun a b => a ≤ b) (mapKeys st1.chunks)
    let missing := missingFrom 0 sortedSeqs
    if missing ≠ [] then
      ({ st1 with rstate := RState.receiving }, [.retransmit missing])
    else
      let finalSorted := sortBy (fun a b => a.1 ≤ b.1) st1.store
      let result := (finalSorted.map (fun c => c.2.data)).flatten
      ({ st1 with rstate := RState.completed, store := [] },
       [.storeRead, .fileEmit result])

/-- An interleaving of receiver operations: assembleFile invocations
(scheduled from the isLast / size-complete check or from an END message)
and incoming data frames. -/
inductive ReceiverOp where
  | assemble
  | frame (buf : List Nat)

/-- Run a sequence of receiver operations, collecting the assembly
effects. -/
def runReceiverOps (dec : List Nat → Nat → Option (List Nat)) :
    ReceiverState → List ReceiverOp → ReceiverState × List AsmEffect
  | st, [] => (st, [])
  | st, .assemble :: rest =>
    let r := assembleFile st
    let rr := runReceiverOps dec r.1 rest
    (rr.1, r.2 ++ rr.2)
  | st, .frame buf :: rest =>
    let r := handleBinaryChunk dec st buf
    let rr := runReceiverOps dec r.1 rest
    (rr.1, rr.2)

/-- The number of file emissions among a list of assembly effects. -/
def emittedFiles (effs : List AsmEffect) : Nat :=
  (effs.filter (fun e =>
    match e with
    | .fileEmit _ => true
    | _ => false)).length

/-! ## 8. Legacy receive path (src/unnamed/part_007 onData, with
saveChunkToDB from src/web/js/db.js putting data keyed by seq) -/

/-- The modelled module-level state used by the legacy onData: the
transferState READY flag, expectedSeq, the reorder buffer Map, and the
contents of the IndexedDB chunks store keyed by seq. -/
structure LegacyReceiverState where
  transferReady : Bool
  expectedSeq : Nat
  reorderBuffer : List (Nat × List Nat)
  store : List (Nat × List Nat)
deriving DecidableEq, Repr

/-- The drain loop of onData (src/unnamed/part_007 lines 594 to 645):
while the reorder buffer holds expectedSeq, persist that chunk
(saveChunkToDB puts it keyed by seq), delete it from the buffer, advance
expectedSeq and send an ACK for it.  The returned list collects the
drained (hence ACKed) sequences in order.  Fuel bounds the recursion;
the buffer length is always enough because every iteration removes one
entry. -/
def drainGo : Nat → LegacyReceiverState → List Nat →
    LegacyReceiverState × List Nat
  | 0, st, acc => (st, acc)
  | fuel + 1, st, acc =>
    match mapLookup st.reorderBuffer st.expectedSeq with
    | none => (st, acc)
    | some data =>
      drainGo fuel
        { st with store := mapPut st.store st.expectedSeq data,
                  reorderBuffer := mapDelete st.reorderBuffer st.expectedSeq,
                  expectedSeq := st.expectedSeq + 1 }
        (acc ++ [st.expectedSeq])

/-- The drain loop with its natural fuel. -/
def drainLoop (st : LegacyReceiverState) : LegacyReceiverState × List Nat :=
  drainGo st.reorderBuffer.length st []

/-- onData (src/unnamed/part_007 lines 582 to 646): ignores frames
outside the READY state; stores an arriving chunk into the reorder
buffer when seq is at least expectedSeq and not already buffered
(decrypting it first, modelled by the total oracle dec applied to
payload and iv); then drains the contiguous prefix.  The second
component lists the sequences drained and ACKed by this call. -/
def onData (dec : List Nat → List Nat → List Nat)
    (st : LegacyReceiverState) (seq : Nat) (iv payload : List Nat) :
    LegacyReceiverState × List Nat :=
  if ¬ st.transferReady then (st, [])
  else
    let st1 :=
      if st.expectedSeq ≤ seq ∧ (mapLookup st.reorderBuffer seq).isNone then
        { st with reorderBuffer :=
            st.reorderBuffer ++ [(seq, dec payload iv)] }
      else st
    drainLoop st1

/-! ## 9. Timed model of ACK batching (src/web/js/receiver.js lines 429
to 435 and sendBatchAck)

This isolates the pending-ACK list, the 100 ms timer and the
receivedBytes counter, with explicit wall-clock times, so that the rate
property of claim C9 can be stated.  A chunkArrival input is the tail of
handleBinaryChunk for a validated and stored chunk; a timerFire input is
the setTimeout callback invoking sendBatchAck. -/

/-- The 100 ms ACK flush delay (receiver.js line 434). -/
def ACK_TIMER_MS : Nat := 100

/-- Pending-ACK list, the registration time of the armed timer (if any),
and receivedBytes. -/
structure BatchAckState where
  pendingAcks : List Nat
  ackTimer : Option Nat
  receivedBytes : Nat
deriving DecidableEq, Repr

/-- Inputs to the batching mechanism, each carrying its wall-clock
time. -/
inductive AckInput where
  | chunkArrival (t seq size : Nat)
  | timerFire (t : Nat)
deriving DecidableEq, Repr

/-- The wall-clock time of an input. -/
def AckInput.time : AckInput → Nat
  | .chunkArrival t _ _ => t
  | .timerFire t => t

/-- A CHUNK_BATCH_ACK message: the flushed sequences, the receivedBytes
value carried with them, and the send time. -/
structure AckMsg where
  sequences : List Nat
  receivedBytes : Nat
  sentAt : Nat
deriving DecidableEq, Repr

/-- One step of the batching mechanism.  On a stored chunk: add its size
to receivedBytes, push its seq; if the pending list has reached
SACK_BATCH_SIZE flush it as one CHUNK_BATCH_ACK (clearing the timer),
else arm the 100 ms timer if it is not armed.  On a timer callback:
sendBatchAck returns silently if nothing is pending, else flushes the
pending list as one CHUNK_BATCH_ACK and clears the timer. -/
def ackStep (st : BatchAckState) : AckInput → BatchAckState × Option AckMsg
  | .chunkArrival t seq n =>
    let st1 : BatchAckState :=
      { st with receivedBytes := st.receivedBytes + n,
                pendingAcks := st.pendingAcks ++ [seq] }
    if SACK_BATCH_SIZE ≤ st1.pendingAcks.length then
      ({ st1 with pendingAcks := [], ackTimer := none },
       some ⟨st1.pendingAcks, st1.receivedBytes, t⟩)
    else if st.ackTimer = none then
      ({ st1 with ackTimer := some t }, none)
    else (st1, none)
  | .timerFire t =>
    if st.pendingAcks.isEmpty then (st, none)
    else
      ({ st with pendingAcks := [], ackTimer := none },
       some ⟨st.pendingAcks, st.receivedBytes, t⟩)

/-- Run the batching mechanism over a list of inputs, collecting the
CHUNK_BATCH_ACK messages in order. -/
def ackRun : BatchAckState → List AckInput → BatchAckState × List AckMsg
  | st, [] => (st, [])
  | st, inp :: rest =>
    let r := ackStep st inp
    let rr := ackRun r.1 rest
    (rr.1, r.2.toList ++ rr.2)

/-- Schedule validity: input times never decrease, and a timer callback
fires exactly ACK_TIMER_MS after the registration recorded in the state
(setTimeout with a 100 ms delay). -/
def ackValid : BatchAckState → Nat → List AckInput → Bool
  | _, _, [] => true
  | st, lastT, inp :: rest =>
    decide (lastT ≤ inp.time) &&
    (match inp with
     | .timerFire t =>
       decide (st.ackTimer = some (t - ACK_TIMER_MS)) && decide (ACK_TIMER_MS ≤ t)
     | _ => true) &&
    ackValid (ackStep st inp).1 inp.time rest

/-- The rate property of claim C9: starting from time t0, each
successive ACK message is sent at least ACK_TIMER_MS after the previous
one, unless it was a size-triggered flush of at least SACK_BATCH_SIZE
sequences. -/
def spacedFrom : Nat → List AckMsg → Prop
  | _, [] => True
  | t0, m :: rest =>
    (t0 + ACK_TIMER_MS ≤ m.sentAt ∨ SACK_BATCH_SIZE ≤ m.sequences.length) ∧
    spacedFrom m.sentAt rest

end SonicShare

namespace SonicShare

/-! ## Theorems: byte-level helpers -/

theorem rd8_cons_add_one (a : Nat) (l : List Nat) (i : Nat) :
    rd8 (a :: l) (i + 1) = rd8 l i := rfl

theorem rd16_cons_add_one (a : Nat) (l : List Nat) (i : Nat) :
    rd16 (a :: l) (i + 1) = rd16 l i := rfl

theorem rd32_cons_add_one (a : Nat) (l : List Nat) (i : Nat) :
    rd32 (a :: l) (i + 1) = rd32 l i := rfl

theorem rd32_be32_append (n : Nat) (r : List Nat) (h : n < 2 ^ 32) :
    rd32 (be32 n ++ r) 0 = n := by
  simp [be32, rd32, rd8]
  omega

theorem rd16_be16_append (n : Nat) (r : List Nat) (h : n < 65536) :
    rd16 (be16 n ++ r) 0 = n := by
  simp [be16, rd16, rd8]
  omega

theorem checksumAcc_lt (l : List Nat) (s : Nat) (h : s < 65536) :
    checksumAcc l s < 65536 := by
  induction l generalizing s with
  | nil => simpa [checksumAcc] using h
  | cons b r ih => exact ih _ (Nat.mod_lt _ (by norm_num))

theorem calculateChecksum_lt (data : List Nat) : calculateChecksum data < 65536 :=
  checksumAcc_lt _ _ (by norm_num)

theorem map_mod256_self (l : List Nat) (h : ∀ b ∈ l, b < 256) :
    l.map (· % 256) = l := by
  induction l with
  | nil => rfl
  | cons a t ih =>
    simp only [List.mem_cons, forall_eq_or_imp] at h
    simp [Nat.mod_eq_of_lt h.1, ih h.2]

/-! ## Theorems: framing codec round trip (claim C7) -/

theorem buildVideoPacket_length (seq : Nat) (payload : List Nat) (isLast : Bool)
    (fileOffset : Nat) :
    (buildVideoPacket seq payload isLast fileOffset).length = 16 + payload.length := by
  simp [buildVideoPacket, be32, be16]
  omega

theorem parsePacket_buildVideoPacket (seq : Nat) (payload : List Nat)
    (isLast : Bool) (fileOffset : Nat) (hseq : seq < 2 ^ 32)
    (hlen : payload.length < 2 ^ 32) (hoff : fileOffset < 2 ^ 32)
    (hbytes : ∀ b ∈ payload, b < 256) :
    parsePacket (buildVideoPacket seq payload isLast fileOffset) =
      .videoData seq payload.length fileOffset isLast
        (calculateChecksum payload) payload := by
  unfold buildVideoPacket
  rw [map_mod256_self payload hbytes]
  simp only [be32, be16, List.cons_append, List.nil_append]
  unfold parsePacket
  simp only [PacketType.VIDEO_DATA, PacketType.ACK, PacketType.DATA,
    PacketType.SACK, PacketType.FEC]
  norm_num [rd32, rd16, rd8]
  have hck := calculateChecksum_lt payload
  exact ⟨by omega, by omega, by omega, by omega, by omega⟩

/-- C7: for every sequence number, payload, isLast flag and file offset,
each within 32-bit range, parsing the frame built by buildVideoPacket
returns a VIDEO_DATA record with the same seq, size equal to the payload
length, the same fileOffset and isLast, the original payload bytes, and a
checksum equal to the 16-bit wrap-around sum of the first min(len, 100)
payload bytes; and the built frame is 16 bytes of big-endian header plus
the payload. -/
theorem C7_video_packet_roundtrip (seq : Nat) (payload : List Nat)
    (isLast : Bool) (fileOffset : Nat) (hseq : seq < 2 ^ 32)
    (hlen : payload.length < 2 ^ 32) (hoff : fileOffset < 2 ^ 32)
    (hbytes : ∀ b ∈ payload, b < 256) :
    parsePacket (buildVideoPacket seq payload isLast fileOffset) =
      .videoData seq payload.length fileOffset isLast
        (calculateChecksum payload) payload ∧
    (buildVideoPacket seq payload isLast fileOffset).length = 16 + payload.length :=
  ⟨parsePacket_buildVideoPacket seq payload isLast fileOffset hseq hlen hoff hbytes,
   buildVideoPacket_length seq payload isLast fileOffset⟩

/-- Witness for C7: the round trip evaluated at seq 3, payload
[1, 2, 250], isLast true, file offset 7. -/
theorem C7_video_packet_roundtrip_witness :
    parsePacket (buildVideoPacket 3 [1, 2, 250] true 7) =
      .videoData 3 3 7 true (calculateChecksum [1, 2, 250]) [1, 2, 250] ∧
    (buildVideoPacket 3 [1, 2, 250] true 7).length = 16 + 3 :=
  C7_video_packet_roundtrip 3 [1, 2, 250] true 7 (by norm_num) (by norm_num)
    (by norm_num) (by decide)

/-! ## Theorems: the deterministic-nonce claim (claim C1)

The sender (src/web/js/protocol.js trySend) builds the deterministic
seq-derived IV and passes it to encryptChunk, but encryptChunk (crypto.js)
takes a single buffer parameter and always encrypts under a fresh random
nonce from getRandomValues, so the nonce actually used is the random one.
The receiver (src/web/js/receiver.js decryptChunk) reconstructs the
deterministic IV from seq, under which the AEAD tag check fails.  The
theorem evaluates the embedded sender and receiver at a concrete failing
input: a two-byte file encrypted under key [1] while getRandomValues
returns twelve 1 bytes. -/

/-- C1 evaluated at the failing input: the single chunk the sender emits
for seq 0 is encrypted under the random nonce (twelve 1 bytes), which
differs from the deterministic nonce for seq 0, and decrypting that
ciphertext with the nonce the receiver reconstructs from seq 0 fails
instead of returning the plaintext. -/
theorem C1_nonce_code_bug :
    (trySend true (fun _ => List.replicate 12 1) 4
        ⟨some [9, 9], 0, 0, 524288, SharedKey.key [1], true, false, 0⟩).2 =
      [⟨0, .cipher (subtleEncrypt [1] (List.replicate 12 1) [9, 9]), true, 0, true⟩] ∧
    List.replicate 12 1 ≠ deterministicIv 0 ∧
    receiverDecryptChunk [1] (subtleEncrypt [1] (List.replicate 12 1) [9, 9]) 0 =
      none := by
  decide

/-! ## Theorems: RESUME_FROM initialisation (claim C4)

The RESUME_FROM branch of handleMessage (src/web/js/protocol.js) sets
only nextSeq = floor(byteOffset / CHUNK_SIZE); fileOffset keeps the value
0 given to it by resetTransfer when METADATA was sent, so the send loop
re-reads the file from byte 0. -/

/-- C4 evaluated at the failing input: a three-byte file [10, 20, 30]
with the receiver resuming from byte offset 2.  After the RESUME_FROM
handler runs, fileOffset is still 0 rather than 2, and the first chunk
sent covers bytes 0 to 2 at offset 0: the bytes before the resume offset
are re-read and re-sent. -/
theorem C4_resume_code_bug :
    (handleResumeFrom
        (resetTransfer ⟨some [10, 20, 30], 37, 5, 1000, SharedKey.nil, false,
          false, 99⟩) 2).fileOffset = 0 ∧
    (handleResumeFrom
        (resetTransfer ⟨some [10, 20, 30], 37, 5, 1000, SharedKey.nil, false,
          false, 99⟩) 2).nextSeq = 0 ∧
    (trySend true (fun _ => []) 4
        (handleResumeFrom
          (resetTransfer ⟨some [10, 20, 30], 37, 5, 1000, SharedKey.nil, false,
            false, 99⟩) 2)).2 =
      [⟨0, .plain [10, 20, 30], true, 0, false⟩] := by
  decide

/-! ## Theorems: sending while the shared key is nil (claim C5) -/

theorem legacyTrySendLoop_nil_key (rand : Nat → List Nat) (fuel : Nat)
    (st : LegacySenderState) (sent : List LegacyDataMsg)
    (h : st.sharedKey = none) :
    (legacyTrySendLoop rand fuel st sent).2 = sent := by
  cases fuel with
  | zero => rfl
  | succ n =>
    unfold legacyTrySendLoop
    cases hcf : st.currentFile with
    | none => rfl
    | some file =>
      simp only [h]
      split <;> rfl

theorem trySendLoop_nil_key_unencrypted (rand : Nat → List Nat) (fuel : Nat)
    (st : SenderState) (sent : List SonicPacket)
    (h : st.sharedKey = SharedKey.nil)
    (hs : ∀ p ∈ sent, p.isEncrypted = false) :
    ∀ p ∈ (trySendLoop true rand fuel st sent).2, p.isEncrypted = false := by
  induction fuel generalizing st sent with
  | zero => exact hs
  | succ n ih =>
    unfold trySendLoop
    cases hcf : st.currentFile with
    | none => exact hs
    | some file =>
      by_cases hlt : st.fileOffset < file.length
      · simp only [hlt, if_true, h, ne_eq, not_true_eq_false, false_and,
          and_false, if_false]
        refine ih _ _ rfl ?_
        intro p hp
        rcases List.mem_append.mp hp with hp | hp
        · exact hs p hp
        · simp only [List.mem_singleton] at hp
          subst hp
          rfl
      · simp only [hlt, if_false]
        exact hs

/-- C5 amended: the legacy sender send loop (src/unnamed/part_000
trySend) refuses to transmit DATA while sharedKey is null, sending
nothing at all; the current send loop (src/web/js/protocol.js trySend)
does transmit chunks while sharedKey is nil, but every chunk it sends in
that situation is unencrypted. -/
theorem C5_sharedKey_discipline :
    (∀ (rand : Nat → List Nat) (fuel : Nat) (st : LegacySenderState),
        st.sharedKey = none → (legacyTrySend rand fuel st).2 = []) ∧
    (∀ (rand : Nat → List Nat) (fuel : Nat) (st : SenderState),
        st.sharedKey = SharedKey.nil →
        ∀ p ∈ (trySend true rand fuel st).2, p.isEncrypted = false) := by
  constructor
  · intro rand fuel st h
    unfold legacyTrySend
    split
    · rfl
    · exact legacyTrySendLoop_nil_key rand fuel _ [] h
  · intro rand fuel st h p hp
    unfold trySend at hp
    split at hp
    · simp at hp
    · exact trySendLoop_nil_key_unencrypted rand fuel
        { st with isSending := true } [] h (by simp) p hp

/-- Witness for C5 amended, at concrete states: a legacy sender with a
three-byte file, READY, transferring and sharedKey null sends nothing;
a current sender in the same situation sends only unencrypted packets. -/
theorem C5_sharedKey_discipline_witness :
    (legacyTrySend (fun _ => []) 3
        ⟨some [7, 7, 7], 0, -1, [], true, false, true, none⟩).2 = [] ∧
    ∀ p ∈ (trySend true (fun _ => []) 3
        ⟨some [7, 7, 7], 0, 0, 524288, SharedKey.nil, true, false, 0⟩).2,
      p.isEncrypted = false :=
  ⟨C5_sharedKey_discipline.1 (fun _ => []) 3 _ rfl,
   C5_sharedKey_discipline.2 (fun _ => []) 3 _ rfl⟩

/-- Counterexample for C5 as stated: the current sender transmits a DATA
chunk while sharedKey is nil.  With a three-byte file, a running
transfer and sharedKey nil, the send loop emits the whole file as one
(unencrypted) DATA chunk instead of refusing to send. -/
theorem C5_counterexample :
    (⟨some [7, 7, 7], 0, 0, 524288, SharedKey.nil, true, false, 0⟩ :
        SenderState).sharedKey = SharedKey.nil ∧
    (trySend true (fun _ => List.replicate 12 0) 4
        ⟨some [7, 7, 7], 0, 0, 524288, SharedKey.nil, true, false, 0⟩).2 =
      [⟨0, .plain [7, 7, 7], true, 0, false⟩] := by
  decide

/-! ## Theorems: association-list model -/

theorem mapLookup_append_of_none {α : Type} (m : List (Nat × α)) (k key : Nat)
    (v : α) (h : mapLookup m key = none) :
    mapLookup (m ++ [(k, v)]) key = if k = key then some v else none := by
  induction m with
  | nil => simp [mapLookup]
  | cons p l ih =>
    by_cases hpk : p.1 = key
    · simp [mapLookup, hpk] at h
    · simp only [mapLookup, List.cons_append] at h ⊢
      rw [if_neg hpk] at h ⊢
      exact ih h

theorem mapLookup_mapDelete_ne {α : Type} (m : List (Nat × α)) (j key : Nat)
    (h : j ≠ key) : mapLookup (mapDelete m j) key = mapLookup m key := by
  induction m with
  | nil => rfl
  | cons p l ih =>
    obtain ⟨a, b⟩ := p
    by_cases hpj : a = j
    · have hpk : ¬ a = key := by rw [hpj]; exact h
      simp only [mapDelete, if_pos hpj, mapLookup, if_neg hpk]
      exact ih
    · by_cases hpk : a = key
      · simp only [mapDelete, if_neg hpj, mapLookup, if_pos hpk]
      · simp only [mapDelete, if_neg hpj, mapLookup, if_neg hpk]
        exact ih

theorem mapDelete_length_le {α : Type} (m : List (Nat × α)) (k : Nat) :
    (mapDelete m k).length ≤ m.length := by
  induction m with
  | nil => simp [mapDelete]
  | cons p l ih =>
    by_cases hpk : p.1 = k
    · simp only [mapDelete, if_pos hpk, List.length_cons]
      omega
    · simp only [mapDelete, if_neg hpk, List.length_cons]
      omega

theorem mapDelete_length_lt {α : Type} (m : List (Nat × α)) (k : Nat) (v : α)
    (h : mapLookup m k = some v) : (mapDelete m k).length < m.length := by
  induction m with
  | nil => simp [mapLookup] at h
  | cons p l ih =>
    by_cases hpk : p.1 = k
    · simp only [mapDelete, if_pos hpk, List.length_cons]
      have := mapDelete_length_le l k
      omega
    · simp only [mapLookup, if_neg hpk] at h
      simp only [mapDelete, if_neg hpk, List.length_cons]
      have := ih h
      omega

theorem mapLookup_none_iff_not_mem {α : Type} (m : List (Nat × α)) (k : Nat) :
    mapLookup m k = none ↔ k ∉ mapKeys m := by
  induction m with
  | nil => simp [mapLookup, mapKeys]
  | cons p l ih =>
    by_cases hpk : p.1 = k
    · simp [mapLookup, mapKeys, hpk]
    · simp only [mapLookup, if_neg hpk, mapKeys, List.map_cons, List.mem_cons]
      rw [ih]
      simp only [mapKeys]
      constructor
      · intro hn hc
        rcases hc with hc | hc
        · exact hpk hc.symm
        · exact hn hc
      · intro hn hc
        exact hn (Or.inr hc)

theorem mapKeys_mapPut_of_some {α : Type} (m : List (Nat × α)) (k : Nat) (v : α)
    (h : (mapLookup m k).isSome) : mapKeys (mapPut m k v) = mapKeys m := by
  simp only [mapPut, if_pos h, mapKeys, List.map_map]
  refine List.map_congr_left ?_
  intro p _
  by_cases hpk : p.1 = k
  · simp [Function.comp, hpk]
  · simp [Function.comp, hpk]

theorem mapPut_keys_nodup {α : Type} (m : List (Nat × α)) (k : Nat) (v : α)
    (h : (mapKeys m).Nodup) : (mapKeys (mapPut m k v)).Nodup := by
  by_cases hl : (mapLookup m k).isSome
  · rw [mapKeys_mapPut_of_some m k v hl]
    exact h
  · have hnone : mapLookup m k = none := by
      cases hmk : mapLookup m k with
      | none => rfl
      | some w => rw [hmk] at hl; simp at hl
    have hmem : k ∉ mapKeys m := (mapLookup_none_iff_not_mem m k).mp hnone
    rw [mapPut, if_neg hl]
    simp only [mapKeys, List.map_append, List.map_cons, List.map_nil]
    simp only [mapKeys] at h hmem
    have hd : (List.map Prod.fst m).Disjoint [k] := by
      intro a ha hb
      simp only [List.mem_singleton] at hb
      subst hb
      exact hmem ha
    exact List.Nodup.append h (List.nodup_singleton k) hd

/-! ## Theorems: framing-error handling in handleBinaryChunk (claim C6) -/

/-- C6 amended: for a frame failing the length check (total length not
16 plus the header size field) or the checksum check, the receiver
changes no state and sends a RETRANSMIT_REQUEST for the frame's seq; but
for a buffer shorter than the 16-byte header the receiver changes no
state and silently drops the frame without requesting a retransmit. -/
theorem C6_framing_errors (dec : List Nat → Nat → Option (List Nat))
    (st : ReceiverState) (buf : List Nat) :
    (buf.length < 16 → handleBinaryChunk dec st buf = (st, [])) ∧
    (16 ≤ buf.length → buf.length ≠ 16 + rd32 buf 4 →
      handleBinaryChunk dec st buf = (st, [.retransmitReq [rd32 buf 0]])) ∧
    (16 ≤ buf.length → buf.length = 16 + rd32 buf 4 →
      calculateChecksum ((buf.drop 16).take (rd32 buf 4)) ≠ rd16 buf 14 →
      handleBinaryChunk dec st buf = (st, [.retransmitReq [rd32 buf 0]])) := by
  refine ⟨fun h => by simp [handleBinaryChunk, h],
    fun h1 h2 => by simp [handleBinaryChunk, Nat.not_lt.mpr h1, h2],
    fun h1 h2 h3 => by simp [handleBinaryChunk, Nat.not_lt.mpr h1, h2, h3]⟩

/-- Witness for C6 amended: a 20-byte frame whose header size field is 1
(so the expected total is 17) is answered by a retransmit request for
its seq field 9, and an in-length frame with a wrong checksum likewise;
state is unchanged in both cases. -/
theorem C6_framing_errors_witness :
    handleBinaryChunk (fun p _ => some p)
      ⟨[], 0, [], false, RState.receiving, 100, [], false⟩
      [0, 0, 0, 9, 0, 0, 0, 1, 0, 0, 0, 0, 0, 0, 0, 5, 5, 0, 0, 0] =
      (⟨[], 0, [], false, RState.receiving, 100, [], false⟩,
       [.retransmitReq [9]]) ∧
    handleBinaryChunk (fun p _ => some p)
      ⟨[], 0, [], false, RState.receiving, 100, [], false⟩
      [0, 0, 0, 9, 0, 0, 0, 1, 0, 0, 0, 0, 0, 0, 0, 4, 5] =
      (⟨[], 0, [], false, RState.receiving, 100, [], false⟩,
       [.retransmitReq [9]]) :=
  ⟨(C6_framing_errors (fun p _ => some p) _ _).2.1 (by norm_num) (by decide),
   (C6_framing_errors (fun p _ => some p) _ _).2.2 (by norm_num) (by decide)
     (by decide)⟩

/-- Counterexample for C6 as stated: a 10-byte frame (shorter than the
16-byte header) is dropped with no retransmit request at all, although
the claim requires a RETRANSMIT_REQUEST for every framing error.  The
first four bytes of the frame read as seq 5, yet no event is emitted. -/
theorem C6_counterexample :
    handleBinaryChunk (fun p _ => some p)
      ⟨[], 0, [], false, RState.receiving, 100, [], false⟩
      [0, 0, 0, 5, 0, 0, 0, 1, 0, 0] =
      (⟨[], 0, [], false, RState.receiving, 100, [], false⟩, []) ∧
    ∀ seqs, REvent.retransmitReq seqs ∉
      (handleBinaryChunk (fun p _ => some p)
        ⟨[], 0, [], false, RState.receiving, 100, [], false⟩
        [0, 0, 0, 5, 0, 0, 0, 1, 0, 0]).2 :=
  ⟨by decide, fun seqs h => by simp [handleBinaryChunk] at h⟩

/-! ## Theorems: ACK enqueue versus chunk-store put (claim C2) -/

/-- Counterexample for C2 as stated: for a valid one-byte chunk frame
with seq 7, the frame lifecycle is putStart 7, ackEnqueue 7,
putComplete 7 — the pending-ACK enqueue happens before the chunk-store
put completes, because handleBinaryChunk calls saveChunk without
awaiting it, so the claimed property persistedBeforeAck fails. -/
theorem C2_counterexample :
    ¬ persistedBeforeAck (frameLifecycle (fun p _ => some p)
        ⟨[], 0, [], false, RState.receiving, 100, [], false⟩
        [0, 0, 0, 7, 0, 0, 0, 1, 0, 0, 0, 0, 0, 0, 0, 5, 5]) := by
  intro h
  have h2 := h 1 7 (by decide)
  revert h2
  decide

/-! ## Theorems: duplicate frames (claim C3) -/

/-- Counterexample for the no-op part of C3 as stated: processing the
same valid one-byte chunk frame twice through
SonicReceiver.handleBinaryChunk yields a different state the second
time, because receivedBytes is incremented again (there is no duplicate
check in that handler). -/
theorem C3_counterexample :
    (handleBinaryChunk (fun p _ => some p)
        (handleBinaryChunk (fun p _ => some p)
          ⟨[], 0, [], false, RState.receiving, 100, [], false⟩
          [0, 0, 0, 7, 0, 0, 0, 1, 0, 0, 0, 0, 0, 0, 0, 5, 5]).1
        [0, 0, 0, 7, 0, 0, 0, 1, 0, 0, 0, 0, 0, 0, 0, 5, 5]).1 ≠
      (handleBinaryChunk (fun p _ => some p)
        ⟨[], 0, [], false, RState.receiving, 100, [], false⟩
        [0, 0, 0, 7, 0, 0, 0, 1, 0, 0, 0, 0, 0, 0, 0, 5, 5]).1 := by
  decide


/-- The events of one handleBinaryChunk run have one of two shapes: a
rejected frame produces no event or a single retransmit request, and an
accepted frame produces putStart then ackEnqueue, then possibly one
batch-ACK send, then possibly an assembly scheduling. -/
theorem handleBinaryChunk_evs_shape (dec : List Nat → Nat → Option (List Nat))
    (st : ReceiverState) (buf : List Nat) :
    ((handleBinaryChunk dec st buf).2 = [] ∨
      ∃ q, (handleBinaryChunk dec st buf).2 = [.retransmitReq [q]]) ∨
    (∃ q A C, (handleBinaryChunk dec st buf).2 =
        [.putStart q, .ackEnqueue q] ++ A ++ C ∧
      (A = [] ∨ ∃ sq rb, A = [.batchAck sq rb]) ∧
      (C = [] ∨ C = [.assembleScheduled])) := by
  unfold handleBinaryChunk
  dsimp only
  split
  · exact Or.inl (Or.inl rfl)
  · split
    · exact Or.inl (Or.inr ⟨_, rfl⟩)
    · split
      · exact Or.inl (Or.inr ⟨_, rfl⟩)
      · split
        · exact Or.inl (Or.inr ⟨_, rfl⟩)
        · split
          · split
            · exact Or.inr ⟨_, _, _, rfl, Or.inr ⟨_, _, rfl⟩, Or.inr rfl⟩
            · exact Or.inr ⟨_, _, _, rfl, Or.inr ⟨_, _, rfl⟩, Or.inl rfl⟩
          · split
            · split
              · exact Or.inr ⟨_, _, _, rfl, Or.inl rfl, Or.inr rfl⟩
              · exact Or.inr ⟨_, _, _, rfl, Or.inl rfl, Or.inl rfl⟩
            · split
              · exact Or.inr ⟨_, _, _, rfl, Or.inl rfl, Or.inr rfl⟩
              · exact Or.inr ⟨_, _, _, rfl, Or.inl rfl, Or.inl rfl⟩

/-- C2 amended: whenever handleBinaryChunk enqueues a sequence number
onto the pending-ACK list, the chunk-store put for that sequence number
is initiated first and the enqueue follows immediately; but the put
completes only at the very end of the frame lifecycle, after the enqueue
and after any CHUNK_BATCH_ACK flush, because saveChunk is invoked
without await.  An ACK can therefore be sent before the payload is
durably persisted. -/
theorem C2_ack_after_put_initiated (dec : List Nat → Nat → Option (List Nat))
    (st : ReceiverState) (buf : List Nat) (s : Nat)
    (h : REvent.ackEnqueue s ∈ (handleBinaryChunk dec st buf).2) :
    ∃ mid, frameLifecycle dec st buf =
      [REvent.putStart s, REvent.ackEnqueue s] ++ mid ++
        [REvent.putComplete s] ∧
      REvent.putComplete s ∉ mid := by
  rcases handleBinaryChunk_evs_shape dec st buf with (hsh | ⟨q, hsh⟩) | hsh
  · rw [hsh] at h
    simp at h
  · rw [hsh] at h
    simp at h
  · obtain ⟨q, A, C, heq, hA, hC⟩ := hsh
    have hsq : s = q := by
      rw [heq] at h
      rcases hA with rfl | ⟨sq, rb, rfl⟩ <;> rcases hC with rfl | rfl <;>
        simpa using h
    subst hsq
    refine ⟨A ++ C, ?_, ?_⟩
    · unfold frameLifecycle
      rw [heq]
      rcases hA with rfl | ⟨sq, rb, rfl⟩ <;> rcases hC with rfl | rfl <;> simp
    · rcases hA with rfl | ⟨sq, rb, rfl⟩ <;> rcases hC with rfl | rfl <;> simp

/-- Witness for C2 amended at the concrete one-byte frame with seq 7:
the lifecycle is putStart 7, ackEnqueue 7, putComplete 7. -/
theorem C2_ack_after_put_initiated_witness :
    ∃ mid, frameLifecycle (fun p _ => some p)
        ⟨[], 0, [], false, RState.receiving, 100, [], false⟩
        [0, 0, 0, 7, 0, 0, 0, 1, 0, 0, 0, 0, 0, 0, 0, 5, 5] =
      [REvent.putStart 7, REvent.ackEnqueue 7] ++ mid ++
        [REvent.putComplete 7] ∧
      REvent.putComplete 7 ∉ mid :=
  C2_ack_after_put_initiated (fun p _ => some p)
    ⟨[], 0, [], false, RState.receiving, 100, [], false⟩
    [0, 0, 0, 7, 0, 0, 0, 1, 0, 0, 0, 0, 0, 0, 0, 5, 5] 7 (by decide)


/-! ## Theorems: the legacy drain loop (src/unnamed/part_007 onData) -/

theorem drainGo_transferReady (fuel : Nat) (st : LegacyReceiverState)
    (acc : List Nat) :
    (drainGo fuel st acc).1.transferReady = st.transferReady := by
  induction fuel generalizing st acc with
  | zero => rfl
  | succ n ih =>
    unfold drainGo
    cases hl : mapLookup st.reorderBuffer st.expectedSeq with
    | none => rfl
    | some d => simpa using ih _ _

theorem drainGo_none (fuel : Nat) (st : LegacyReceiverState) (acc : List Nat)
    (h : mapLookup st.reorderBuffer st.expectedSeq = none) :
    drainGo fuel st acc = (st, acc) := by
  cases fuel with
  | zero => rfl
  | succ n =>
    unfold drainGo
    rw [h]

theorem drainGo_step (n : Nat) (st : LegacyReceiverState) (acc : List Nat)
    (d : List Nat) (hl : mapLookup st.reorderBuffer st.expectedSeq = some d) :
    drainGo (n + 1) st acc =
      drainGo n
        { st with store := mapPut st.store st.expectedSeq d,
                  reorderBuffer := mapDelete st.reorderBuffer st.expectedSeq,
                  expectedSeq := st.expectedSeq + 1 }
        (acc ++ [st.expectedSeq]) := by
  conv_lhs => unfold drainGo
  rw [hl]

theorem drainGo_expectedSeq_le (fuel : Nat) (st : LegacyReceiverState)
    (acc : List Nat) :
    st.expectedSeq ≤ (drainGo fuel st acc).1.expectedSeq := by
  induction fuel generalizing st acc with
  | zero => exact Nat.le_refl _
  | succ n ih =>
    rcases hl : mapLookup st.reorderBuffer st.expectedSeq with _ | d
    · rw [drainGo_none (n + 1) st acc hl]
    · rw [drainGo_step n st acc d hl]
      have h1 := ih
        { st with store := mapPut st.store st.expectedSeq d,
                  reorderBuffer := mapDelete st.reorderBuffer st.expectedSeq,
                  expectedSeq := st.expectedSeq + 1 }
        (acc ++ [st.expectedSeq])
      simp only at h1
      omega

theorem drainGo_fixpoint (fuel : Nat) (st : LegacyReceiverState)
    (acc : List Nat) (h : st.reorderBuffer.length ≤ fuel) :
    mapLookup (drainGo fuel st acc).1.reorderBuffer
      (drainGo fuel st acc).1.expectedSeq = none := by
  induction fuel generalizing st acc with
  | zero =>
    have hb : st.reorderBuffer = [] :=
      List.length_eq_zero.mp (Nat.le_zero.mp h)
    simp [drainGo, hb, mapLookup]
  | succ n ih =>
    rcases hl : mapLookup st.reorderBuffer st.expectedSeq with _ | d
    · rw [drainGo_none (n + 1) st acc hl]
      exact hl
    · rw [drainGo_step n st acc d hl]
      apply ih
      have hlt := mapDelete_length_lt st.reorderBuffer st.expectedSeq d hl
      simp only
      omega

theorem drainGo_preserves_ge (fuel : Nat) (st : LegacyReceiverState)
    (acc : List Nat) (s : Nat)
    (hs : (drainGo fuel st acc).1.expectedSeq ≤ s) :
    mapLookup (drainGo fuel st acc).1.reorderBuffer s =
      mapLookup st.reorderBuffer s := by
  induction fuel generalizing st acc with
  | zero => rfl
  | succ n ih =>
    rcases hl : mapLookup st.reorderBuffer st.expectedSeq with _ | d
    · rw [drainGo_none (n + 1) st acc hl]
    · have hstep := drainGo_step n st acc d hl
      rw [hstep] at hs ⊢
      have hmono := drainGo_expectedSeq_le n
        { st with store := mapPut st.store st.expectedSeq d,
                  reorderBuffer := mapDelete st.reorderBuffer st.expectedSeq,
                  expectedSeq := st.expectedSeq + 1 }
        (acc ++ [st.expectedSeq])
      simp only at hmono
      have hne : st.expectedSeq ≠ s := by omega
      rw [ih _ _ hs]
      exact mapLookup_mapDelete_ne st.reorderBuffer st.expectedSeq s hne

theorem drainLoop_transferReady (st : LegacyReceiverState) :
    (drainLoop st).1.transferReady = st.transferReady :=
  drainGo_transferReady _ _ _

theorem drainLoop_expectedSeq_le (st : LegacyReceiverState) :
    st.expectedSeq ≤ (drainLoop st).1.expectedSeq :=
  drainGo_expectedSeq_le _ _ _

theorem drainLoop_fixpoint (st : LegacyReceiverState) :
    mapLookup (drainLoop st).1.reorderBuffer
      (drainLoop st).1.expectedSeq = none :=
  drainGo_fixpoint _ _ _ (Nat.le_refl _)

theorem drainLoop_preserves_ge (st : LegacyReceiverState) (s : Nat)
    (hs : (drainLoop st).1.expectedSeq ≤ s) :
    mapLookup (drainLoop st).1.reorderBuffer s =
      mapLookup st.reorderBuffer s :=
  drainGo_preserves_ge _ _ _ _ hs

theorem drainLoop_none (st : LegacyReceiverState)
    (h : mapLookup st.reorderBuffer st.expectedSeq = none) :
    drainLoop st = (st, []) :=
  drainGo_none _ _ _ h

/-! ## Theorems: monotone progress and late frames (claim C8) -/

/-- C8: across any onData operation of the legacy receive loop,
expectedSeq never decreases; after any onData in the READY state the
reorder buffer holds nothing at the new expectedSeq (the invariant every
reachable state satisfies); and in a state satisfying that invariant a
frame whose seq is strictly below expectedSeq is ignored completely: the
state (reorder buffer, chunk store and expectedSeq alike) is unchanged
and nothing is ACKed. -/
theorem C8_nextExpected_monotone (dec : List Nat → List Nat → List Nat)
    (st : LegacyReceiverState) (seq : Nat) (iv payload : List Nat) :
    st.expectedSeq ≤ (onData dec st seq iv payload).1.expectedSeq ∧
    (st.transferReady = true →
      mapLookup (onData dec st seq iv payload).1.reorderBuffer
        (onData dec st seq iv payload).1.expectedSeq = none) ∧
    (mapLookup st.reorderBuffer st.expectedSeq = none →
      seq < st.expectedSeq → onData dec st seq iv payload = (st, [])) := by
  refine ⟨?_, ?_, ?_⟩
  · unfold onData
    split
    · exact Nat.le_refl _
    · dsimp only
      split
      · exact drainLoop_expectedSeq_le
          { st with reorderBuffer := st.reorderBuffer ++ [(seq, dec payload iv)] }
      · exact drainLoop_expectedSeq_le st
  · intro hready
    unfold onData
    rw [if_neg (by simp [hready])]
    dsimp only
    split
    · exact drainLoop_fixpoint _
    · exact drainLoop_fixpoint _
  · intro hnone hlt
    unfold onData
    split
    · rfl
    · rw [if_neg (by omega : ¬ (st.expectedSeq ≤ seq ∧
        (mapLookup st.reorderBuffer seq).isNone = true))]
      exact drainLoop_none st hnone

/-- Witness for C8 at a concrete state: expectedSeq 5 with an empty
reorder buffer, receiving a late frame with seq 3: expectedSeq does not
decrease, the invariant holds afterwards, and the late frame is a
complete no-op. -/
theorem C8_nextExpected_monotone_witness :
    (⟨true, 5, [], []⟩ : LegacyReceiverState).expectedSeq ≤
      (onData (fun p _ => p) ⟨true, 5, [], []⟩ 3 [] [9]).1.expectedSeq ∧
    mapLookup (onData (fun p _ => p) ⟨true, 5, [], []⟩ 3 [] [9]).1.reorderBuffer
      (onData (fun p _ => p) ⟨true, 5, [], []⟩ 3 [] [9]).1.expectedSeq = none ∧
    onData (fun p _ => p) ⟨true, 5, [], []⟩ 3 [] [9] =
      (⟨true, 5, [], []⟩, []) :=
  ⟨(C8_nextExpected_monotone (fun p _ => p) ⟨true, 5, [], []⟩ 3 [] [9]).1,
   (C8_nextExpected_monotone (fun p _ => p) ⟨true, 5, [], []⟩ 3 [] [9]).2.1 rfl,
   (C8_nextExpected_monotone (fun p _ => p) ⟨true, 5, [], []⟩ 3 [] [9]).2.2
     rfl (by norm_num)⟩

/-! ## Theorems: duplicate frames are no-ops in the legacy path and the
chunk store never holds two entries for one sequence number (claim C3) -/

/-- C3 amended: in the legacy receive path (src/unnamed/part_007
onData), processing the same data frame a second time is a no-op: the
state is unchanged and nothing is drained or ACKed.  In
SonicReceiver.handleBinaryChunk the chunk store keeps at most one record
per (transferId, seq), since the keyed put replaces; but a duplicate
valid frame there is not a no-op: it increments receivedBytes again (see
the counterexample). -/
theorem C3_duplicate_handling :
    (∀ (dec : List Nat → List Nat → List Nat) (st : LegacyReceiverState)
        (seq : Nat) (iv payload : List Nat),
      onData dec (onData dec st seq iv payload).1 seq iv payload =
        ((onData dec st seq iv payload).1, [])) ∧
    (∀ (dec : List Nat → Nat → Option (List Nat)) (st : ReceiverState)
        (buf : List Nat), (mapKeys st.store).Nodup →
      (mapKeys (handleBinaryChunk dec st buf).1.store).Nodup) := by
  constructor
  · intro dec st seq iv payload
    by_cases hready : st.transferReady = true
    · set st1 := (if st.expectedSeq ≤ seq ∧
          (mapLookup st.reorderBuffer seq).isNone then
        { st with reorderBuffer :=
            st.reorderBuffer ++ [(seq, dec payload iv)] }
        else st : LegacyReceiverState) with hst1
      have hr : onData dec st seq iv payload = drainLoop st1 := by
        unfold onData
        rw [if_neg (by simp [hready])]
      have hfix : mapLookup (drainLoop st1).1.reorderBuffer
          (drainLoop st1).1.expectedSeq = none := drainLoop_fixpoint st1
      have hready2 : (drainLoop st1).1.transferReady = true := by
        rw [drainLoop_transferReady]
        rw [hst1]
        split <;> exact hready
      have hnoins : ¬ ((drainLoop st1).1.expectedSeq ≤ seq ∧
          (mapLookup (drainLoop st1).1.reorderBuffer seq).isNone = true) := by
        intro hcon
        obtain ⟨hle, hno⟩ := hcon
        have hpres : mapLookup (drainLoop st1).1.reorderBuffer seq =
            mapLookup st1.reorderBuffer seq :=
          drainLoop_preserves_ge st1 seq hle
        by_cases hcond : st.expectedSeq ≤ seq ∧
            (mapLookup st.reorderBuffer seq).isNone
        · have hb : st1.reorderBuffer =
              st.reorderBuffer ++ [(seq, dec payload iv)] := by
            rw [hst1, if_pos hcond]
          have hn : mapLookup st.reorderBuffer seq = none := by
            cases hmk : mapLookup st.reorderBuffer seq with
            | none => rfl
            | some w => rw [hmk] at hcond; simp at hcond
          have hsome : mapLookup st1.reorderBuffer seq =
              some (dec payload iv) := by
            rw [hb, mapLookup_append_of_none _ _ _ _ hn, if_pos rfl]
          rw [hpres, hsome] at hno
          simp at hno
        · have hb : st1 = st := by rw [hst1, if_neg hcond]
          push_neg at hcond
          by_cases hle0 : st.expectedSeq ≤ seq
          · have hns := hcond hle0
            have hb2 : mapLookup st1.reorderBuffer seq =
                mapLookup st.reorderBuffer seq := by rw [hb]
            rw [hpres, hb2] at hno
            exact hns hno
          · have hmono := drainLoop_expectedSeq_le st1
            have hexp : st1.expectedSeq = st.expectedSeq := by rw [hb]
            omega
      rw [hr]
      unfold onData
      rw [if_neg (by simp [hready2]), if_neg hnoins]
      exact drainLoop_none _ hfix
    · have hst : onData dec st seq iv payload = (st, []) := by
        unfold onData
        rw [if_pos (by simpa using hready)]
      rw [hst]
      unfold onData
      rw [if_pos (by simpa using hready)]
  · intro dec st buf h
    unfold handleBinaryChunk
    dsimp only
    split
    · exact h
    · split
      · exact h
      · split
        · exact h
        · split
          · exact h
          · split
            · exact mapPut_keys_nodup _ _ _ h
            · split
              · exact mapPut_keys_nodup _ _ _ h
              · exact mapPut_keys_nodup _ _ _ h

/-- Witness for C3 amended: a duplicate of an already-buffered frame
with seq 2 is a no-op for the legacy path, and a put into a store
already holding seq 0 keeps the keys distinct. -/
theorem C3_duplicate_handling_witness :
    onData (fun p _ => p)
        (onData (fun p _ => p) ⟨true, 1, [], []⟩ 2 [] [8]).1 2 [] [8] =
      ((onData (fun p _ => p) ⟨true, 1, [], []⟩ 2 [] [8]).1, []) ∧
    (mapKeys (handleBinaryChunk (fun p _ => some p)
        ⟨[], 0, [], false, RState.receiving, 100, [(0, ⟨[9], 0, 1, false⟩)],
          false⟩
        [0, 0, 0, 7, 0, 0, 0, 1, 0, 0, 0, 0, 0, 0, 0, 5, 5]).1.store).Nodup :=
  ⟨C3_duplicate_handling.1 (fun p _ => p) ⟨true, 1, [], []⟩ 2 [] [8],
   C3_duplicate_handling.2 (fun p _ => some p) _ _ (by decide)⟩


/-! ## Theorems: assembly happens at most once (claim C10) -/

theorem handleBinaryChunk_rstate (dec : List Nat → Nat → Option (List Nat))
    (st : ReceiverState) (buf : List Nat) :
    (handleBinaryChunk dec st buf).1.rstate = st.rstate := by
  unfold handleBinaryChunk
  dsimp only
  split
  · rfl
  · split
    · rfl
    · split
      · rfl
      · split
        · rfl
        · split
          · rfl
          · split
            · rfl
            · rfl

theorem assembleFile_guard (st : ReceiverState)
    (h : st.rstate = RState.assembling ∨ st.rstate = RState.completed) :
    assembleFile st = (st, []) := by
  unfold assembleFile
  rw [if_pos h]

theorem assembleFile_cases (st : ReceiverState) :
    assembleFile st = (st, []) ∨
    (∃ seqs, assembleFile st =
      ({ st with rstate := RState.receiving }, [.retransmit seqs])) ∨
    (∃ bytes, assembleFile st =
      ({ st with rstate := RState.completed, store := [] },
       [.storeRead, .fileEmit bytes])) := by
  unfold assembleFile
  split
  · exact Or.inl rfl
  · dsimp only
    split
    · exact Or.inr (Or.inl ⟨_, rfl⟩)
    · exact Or.inr (Or.inr ⟨_, rfl⟩)

theorem emittedFiles_append (a b : List AsmEffect) :
    emittedFiles (a ++ b) = emittedFiles a + emittedFiles b := by
  simp [emittedFiles, List.filter_append]

theorem runReceiverOps_completed (dec : List Nat → Nat → Option (List Nat))
    (st : ReceiverState) (ops : List ReceiverOp)
    (h : st.rstate = RState.completed) :
    (runReceiverOps dec st ops).2 = [] ∧
    (runReceiverOps dec st ops).1.rstate = RState.completed := by
  induction ops generalizing st with
  | nil => exact ⟨rfl, h⟩
  | cons op rest ih =>
    cases op with
    | assemble =>
      have hguard := assembleFile_guard st (Or.inr h)
      have hrec := ih st h
      unfold runReceiverOps
      rw [hguard]
      simpa using hrec
    | frame buf =>
      have hrs : (handleBinaryChunk dec st buf).1.rstate = RState.completed := by
        rw [handleBinaryChunk_rstate]
        exact h
      have hrec := ih _ hrs
      unfold runReceiverOps
      exact hrec

theorem runReceiverOps_at_most_once (dec : List Nat → Nat → Option (List Nat))
    (st : ReceiverState) (ops : List ReceiverOp) :
    emittedFiles (runReceiverOps dec st ops).2 ≤ 1 := by
  induction ops generalizing st with
  | nil => simp [runReceiverOps, emittedFiles]
  | cons op rest ih =>
    cases op with
    | frame buf =>
      unfold runReceiverOps
      exact ih _
    | assemble =>
      rcases assembleFile_cases st with hc | ⟨seqs, hc⟩ | ⟨bytes, hc⟩
      · unfold runReceiverOps
        rw [hc]
        dsimp only
        rw [emittedFiles_append]
        have := ih st
        simpa [emittedFiles] using this
      · unfold runReceiverOps
        rw [hc]
        dsimp only
        rw [emittedFiles_append]
        have := ih ({ st with rstate := RState.receiving })
        simpa [emittedFiles] using this
      · unfold runReceiverOps
        rw [hc]
        dsimp only
        rw [emittedFiles_append]
        have hdone := runReceiverOps_completed dec
          ({ st with rstate := RState.completed, store := [] }) rest rfl
        rw [hdone.1]
        simp [emittedFiles]

/-- C10: once the receiver state is assembling or completed, any further
assembleFile call returns immediately with no effect (no store read, no
file emission, no state change); and across any interleaving of
assembleFile calls and incoming data frames, at most one file is ever
emitted to the application, even though assembly is scheduled both by an
isLast chunk and by receivedBytes reaching fileSize. -/
theorem C10_assemble_at_most_once :
    (∀ st : ReceiverState,
      st.rstate = RState.assembling ∨ st.rstate = RState.completed →
      assembleFile st = (st, [])) ∧
    (∀ (dec : List Nat → Nat → Option (List Nat)) (st : ReceiverState)
        (ops : List ReceiverOp),
      emittedFiles (runReceiverOps dec st ops).2 ≤ 1) :=
  ⟨assembleFile_guard, runReceiverOps_at_most_once⟩

/-- Witness for C10: a completed receiver ignores an assembleFile call,
and a receiver holding the single chunk of a one-byte transfer emits at
most one file over two consecutive assembleFile calls. -/
theorem C10_assemble_at_most_once_witness :
    assembleFile ⟨[], 0, [], false, RState.completed, 100, [], false⟩ =
      (⟨[], 0, [], false, RState.completed, 100, [], false⟩, []) ∧
    emittedFiles (runReceiverOps (fun p _ => some p)
      ⟨[(0, ⟨0, 1, true⟩)], 1, [], false, RState.receiving, 1,
        [(0, ⟨[5], 0, 1, true⟩)], false⟩
      [ReceiverOp.assemble, ReceiverOp.assemble]).2 ≤ 1 :=
  ⟨C10_assemble_at_most_once.1 _ (Or.inr rfl),
   C10_assemble_at_most_once.2 (fun p _ => some p) _ _⟩


/-! ## Theorems: ACK batching rate (claim C9) -/

theorem spacedFrom_cons (t0 : Nat) (m : AckMsg) (l : List AckMsg) :
    spacedFrom t0 (m :: l) ↔
      ((t0 + ACK_TIMER_MS ≤ m.sentAt ∨ SACK_BATCH_SIZE ≤ m.sequences.length) ∧
        spacedFrom m.sentAt l) := Iff.rfl

theorem ackRun_cons (st : BatchAckState) (inp : AckInput)
    (rest : List AckInput) :
    (ackRun st (inp :: rest)).2 =
      (ackStep st inp).2.toList ++ (ackRun (ackStep st inp).1 rest).2 := rfl

theorem ackRun_spaced (inputs : List AckInput) :
    ∀ (st : BatchAckState) (t0 lastT : Nat),
    ackValid st lastT inputs = true → t0 ≤ lastT →
    (∀ s, st.ackTimer = some s → t0 ≤ s) →
    spacedFrom t0 (ackRun st inputs).2 := by
  induction inputs with
  | nil =>
    intro st t0 lastT hv ht htimer
    exact trivial
  | cons inp rest ih =>
    intro st t0 lastT hv ht htimer
    unfold ackValid at hv
    simp only [Bool.and_eq_true, decide_eq_true_eq] at hv
    obtain ⟨⟨h1, h2⟩, h3⟩ := hv
    rw [ackRun_cons]
    cases inp with
    | chunkArrival t seq n =>
      simp only [AckInput.time] at h1 h3
      by_cases hflush : SACK_BATCH_SIZE ≤ (st.pendingAcks ++ [seq]).length
      · have hstep : ackStep st (AckInput.chunkArrival t seq n) =
            (⟨[], none, st.receivedBytes + n⟩,
             some ⟨st.pendingAcks ++ [seq], st.receivedBytes + n, t⟩) := by
          unfold ackStep
          dsimp only
          rw [if_pos hflush]
        rw [hstep] at h3 ⊢
        dsimp only [Option.toList, List.singleton_append]
        rw [spacedFrom_cons]
        refine ⟨Or.inr hflush, ?_⟩
        exact ih _ t t h3 (Nat.le_refl t) (fun s hs => by simp at hs)
      · by_cases htnone : st.ackTimer = none
        · have hstep : ackStep st (AckInput.chunkArrival t seq n) =
              (⟨st.pendingAcks ++ [seq], some t, st.receivedBytes + n⟩,
               none) := by
            unfold ackStep
            dsimp only
            rw [if_neg hflush, if_pos htnone]
          rw [hstep] at h3 ⊢
          dsimp only [Option.toList, List.nil_append]
          exact ih _ t0 t h3 (le_trans ht h1)
            (fun s hs => by
              simp only at hs
              injection hs with hs
              omega)
        · have hstep : ackStep st (AckInput.chunkArrival t seq n) =
              (⟨st.pendingAcks ++ [seq], st.ackTimer, st.receivedBytes + n⟩,
               none) := by
            unfold ackStep
            dsimp only
            rw [if_neg hflush, if_neg htnone]
          rw [hstep] at h3 ⊢
          dsimp only [Option.toList, List.nil_append]
          exact ih _ t0 t h3 (le_trans ht h1) (fun s hs => htimer s hs)
    | timerFire t =>
      simp only [AckInput.time] at h1 h3
      dsimp only at h2
      simp only [Bool.and_eq_true, decide_eq_true_eq] at h2
      obtain ⟨htset, htle⟩ := h2
      by_cases hempty : st.pendingAcks.isEmpty
      · have hstep : ackStep st (AckInput.timerFire t) = (st, none) := by
          unfold ackStep
          dsimp only
          rw [if_pos hempty]
        rw [hstep] at h3 ⊢
        dsimp only [Option.toList, List.nil_append]
        exact ih _ t0 t h3 (le_trans ht h1) htimer
      · have hstep : ackStep st (AckInput.timerFire t) =
            (⟨[], none, st.receivedBytes⟩,
             some ⟨st.pendingAcks, st.receivedBytes, t⟩) := by
          unfold ackStep
          dsimp only
          rw [if_neg hempty]
        rw [hstep] at h3 ⊢
        dsimp only [Option.toList, List.singleton_append]
        rw [spacedFrom_cons]
        refine ⟨Or.inl ?_, ?_⟩
        · have h4 := htimer _ htset
          simp only [ACK_TIMER_MS] at htle h4 ⊢
          omega
        · exact ih _ t t h3 (Nat.le_refl t) (fun s hs => by simp at hs)

theorem ackRun_nonempty_sequences (inputs : List AckInput) :
    ∀ (st : BatchAckState), ∀ m ∈ (ackRun st inputs).2, m.sequences ≠ [] := by
  induction inputs with
  | nil =>
    intro st m hm
    simp [ackRun] at hm
  | cons inp rest ih =>
    intro st m hm
    rw [ackRun_cons] at hm
    rcases List.mem_append.mp hm with hm | hm
    · cases inp with
      | chunkArrival t seq n =>
        unfold ackStep at hm
        dsimp only at hm
        by_cases hflush : SACK_BATCH_SIZE ≤ (st.pendingAcks ++ [seq]).length
        · rw [if_pos hflush] at hm
          simp only [Option.toList, List.mem_singleton] at hm
          subst hm
          simp
        · rw [if_neg hflush] at hm
          split at hm <;> simp at hm
      | timerFire t =>
        unfold ackStep at hm
        dsimp only at hm
        by_cases hempty : st.pendingAcks.isEmpty
        · rw [if_pos hempty] at hm
          simp at hm
        · rw [if_neg hempty] at hm
          simp only [Option.toList, List.mem_singleton] at hm
          subst hm
          simpa using hempty
    · exact ih _ m hm

/-- C9: from the receiver start state (no pending ACKs, timer unarmed),
along any valid schedule of stored chunks and timer callbacks, every
CHUNK_BATCH_ACK carries at least one sequence number, and consecutive
ACK messages are separated by at least 100 ms unless the later one is a
size-triggered flush of at least SACK_BATCH_SIZE sequences: at most one
ACK per 100 ms or per SACK_BATCH_SIZE received chunks, whichever comes
first. -/
theorem C9_ack_batching (inputs : List AckInput)
    (hv : ackValid ⟨[], none, 0⟩ 0 inputs = true) :
    spacedFrom 0 (ackRun ⟨[], none, 0⟩ inputs).2 ∧
    ∀ m ∈ (ackRun ⟨[], none, 0⟩ inputs).2, m.sequences ≠ [] :=
  ⟨ackRun_spaced inputs ⟨[], none, 0⟩ 0 0 hv (Nat.le_refl 0)
      (fun s hs => by simp at hs),
   ackRun_nonempty_sequences inputs ⟨[], none, 0⟩⟩

/-- Witness for C9: one chunk stored at t = 5 arms the timer, which
fires at t = 105 and flushes a single nonempty ACK, correctly spaced. -/
theorem C9_ack_batching_witness :
    spacedFrom 0 (ackRun ⟨[], none, 0⟩
      [AckInput.chunkArrival 5 0 10, AckInput.timerFire 105]).2 ∧
    ∀ m ∈ (ackRun ⟨[], none, 0⟩
      [AckInput.chunkArrival 5 0 10, AckInput.timerFire 105]).2,
      m.sequences ≠ [] :=
  C9_ack_batching [AckInput.chunkArrival 5 0 10, AckInput.timerFire 105]
    (by decide)

end SonicShare
